import Mathlib

open scoped Matrix

/-!
Verification development for the multilingual embedding-alignment system
(generalized Procrustes MUSE variant).  The definitions below are shallow
embeddings of the Python source files src/dico_builder.py and src/trainer.py:
pure tensor pipelines become Lean functions over lists and Mathlib matrices,
machine floats become exact rationals (or reals where spectral reasoning is
needed), and external linear-algebra routines (scipy SVD, torch sort) are
modelled by explicit parameters or by a stable sort, as documented on each
definition.
-/

/-- Python substring test (the expression sub in s), used for the
dico_build policy flags and the sgd check in update_lr. -/
def strContains (s sub : String) : Bool :=
  decide (sub.toList <:+: s.toList)

/-! ## Candidate Pair Selector (dico_builder.get_candidates, lines 102-140)

The scoring phase (nearest-neighbour / inverted softmax / CSLS batched
matrix products) produces two parallel arrays of shape (n_src, 2):
top-2 scores and top-2 target indices per source row.  We embed the
pair-processing pipeline that follows, taking those rows as input. -/

/-- One row of the scorer output: top-2 scores and top-2 target indices. -/
structure ScoredRow where
  s0 : ℚ
  s1 : ℚ
  t0 : ℕ
  t1 : ℕ
deriving DecidableEq, Repr

/-- A candidate pair together with its top-2 scores
(all_pairs row plus the matching all_scores row). -/
structure Cand where
  src : ℕ
  tgt : ℕ
  s0 : ℚ
  s1 : ℚ
deriving DecidableEq, Repr

/-- Confidence margin: difference between best and second-best score
(diff = all_scores[:, 0] - all_scores[:, 1]). -/
def Cand.margin (c : Cand) : ℚ := c.s0 - c.s1

/-- The parameters consumed by get_candidates. -/
structure DicoParams where
  dico_max_rank : ℕ
  dico_max_size : ℕ
  dico_min_size : ℕ
  dico_threshold : ℚ
deriving Repr

/-- all_pairs construction: pair every source row index with its best
target index, keeping the score row
(torch.cat([arange(n), all_targets[:, 0]], 1)). -/
def mkCands (rows : List ScoredRow) : List Cand :=
  rows.enum.map fun p => ⟨p.1, p.2.t0, p.2.s0, p.2.s1⟩

/-- Descending-by-margin comparison used for the confidence sort. -/
def candLE (a b : Cand) : Bool := decide (b.margin ≤ a.margin)

/-- The sort of pairs by descending confidence margin
(diff.sort(0, descending=True)).  The torch sort primitive is modelled
as a stable descending sort (mergeSort), so equal margins keep their
original relative order. -/
def sortCands (l : List Cand) : List Cand := l.mergeSort candLE

/-- Max-rank filter: drop pairs whose larger index exceeds dico_max_rank
(all_pairs.max(1)[0] <= params.dico_max_rank), applied after the sort
when dico_max_rank > 0. -/
def rankFiltered (p : DicoParams) (rows : List ScoredRow) : List Cand :=
  let sorted := sortCands (mkCands rows)
  if 0 < p.dico_max_rank then
    sorted.filter fun c => decide (max c.src c.tgt ≤ p.dico_max_rank)
  else sorted

/-- Max-size truncation: keep the first dico_max_size pairs when
dico_max_size > 0. -/
def sizeCapped (p : DicoParams) (rows : List ScoredRow) : List Cand :=
  if 0 < p.dico_max_size then (rankFiltered p rows).take p.dico_max_size
  else rankFiltered p rows

/-- Effective margin after the min-size override: the first dico_min_size
margins are replaced by the sentinel 1e9 when dico_min_size > 0
(diff[:dico_min_size] = 1e9). -/
def effMargin (p : DicoParams) (i : ℕ) (c : Cand) : ℚ :=
  if 0 < p.dico_min_size ∧ i < p.dico_min_size then 10 ^ 9 else c.margin

/-- The full pair-processing pipeline of get_candidates: sort by margin,
rank filter, size cap, min-size sentinel override, confidence-threshold
filter (mask = diff > dico_threshold, applied when dico_threshold > 0). -/
def get_candidates (p : DicoParams) (rows : List ScoredRow) : List Cand :=
  let capped := sizeCapped p rows
  if 0 < p.dico_threshold then
    (capped.enum.filter fun ic =>
      decide (p.dico_threshold < effMargin p ic.1 ic.2)).map Prod.snd
  else capped

/-! ## Pairwise Dictionary Builder (dico_builder.build_pairwise_dictionary,
lines 143-182)

Candidate sets are passed in precomputed (the claims fix them); the
function combines them according to the dico_build policy.  The Python
return value is either an ordered tensor of pairs (S2T / T2S policies),
an order-undefined set of pairs (union / intersection policies), or
None when the intersection is empty; a failed assert is a raised
exception, modelled by Except.error. -/

/-- Result of build_pairwise_dictionary when it returns normally. -/
inductive PDico where
  | tensorList : List (ℕ × ℕ) → PDico
  | pairSet : Finset (ℕ × ℕ) → PDico
deriving DecidableEq

/-- build_pairwise_dictionary: combine source-to-target and
target-to-source candidate pair lists under the given build policy.
The t2s candidates are computed direction-reversed, so their two columns
are swapped back into (source, target) order before any policy is applied
(torch.cat([t2s[:, 1:], t2s[:, :1]], 1)).  Returns .ok none for the
empty-intersection signal (Python None) and .error for a failed assert. -/
def build_pairwise_dictionary (build : String)
    (s2t_candidates t2s_candidates : List (ℕ × ℕ)) :
    Except String (Option PDico) :=
  let s2t := strContains build "S2T"
  let t2s := strContains build "T2S"
  if ¬ (s2t = true ∨ t2s = true) then .error "assert s2t or t2s" else
  let t2sSwapped := t2s_candidates.map fun pr => (pr.2, pr.1)
  if build = "S2T" then .ok (some (.tensorList s2t_candidates))
  else if build = "T2S" then .ok (some (.tensorList t2sSwapped))
  else
    let sset := s2t_candidates.toFinset
    let tset := t2sSwapped.toFinset
    if build = "S2T|T2S" then .ok (some (.pairSet (sset ∪ tset)))
    else if build = "S2T&T2S" then
      let final_pairs := sset ∩ tset
      if final_pairs = ∅ then .ok none
      else .ok (some (.pairSet final_pairs))
    else .error "assert dico_build eq S2T&T2S"

/-! ## Training Loop Orchestrator: learning-rate scheduling
(trainer.update_lr, lines 228-251, and trainer.save_best, lines 253-267)

The optimizer learning rate, the sticky decrease_lr flag and the best
validation metric are the mutable trainer state touched by these two
methods.  Metrics and rates are exact rationals (the float literals
1e9, -1e7, -1e12 are exactly representable). -/

/-- The scheduling parameters consumed by update_lr. -/
structure LrParams where
  map_optimizer : String
  min_lr : ℚ
  lr_decay : ℚ
  lr_shrink : ℚ
deriving Repr

/-- The trainer state mutated by update_lr and save_best. -/
structure TrainerState where
  lr : ℚ
  decreaseLr : Bool
  best : ℚ
deriving DecidableEq, Repr

/-- The initial trainer state: best_valid_metric = -1e12,
decrease_lr = False, with the configured starting learning rate. -/
def initState (lr0 : ℚ) : TrainerState := ⟨lr0, false, -(10 ^ 12)⟩

/-- trainer.update_lr: unconditional per-epoch decay (SGD only; the new
rate is written only when strictly smaller than the current one), then
the additional shrink, applied only when lr_shrink < 1, the metric is
valid (at least -1e7), it is below the best, and the sticky decrease_lr
flag was already set; any non-improving valid epoch sets the flag.
Returns the new state and whether the shrink multiplication fired. -/
def update_lr (p : LrParams) (s : TrainerState) (metric : ℚ) :
    TrainerState × Bool :=
  if ¬ strContains p.map_optimizer "sgd" = true then (s, false) else
  let lr1 :=
    if max p.min_lr (s.lr * p.lr_decay) < s.lr then max p.min_lr (s.lr * p.lr_decay)
    else s.lr
  if p.lr_shrink < 1 ∧ -(10 ^ 7 : ℚ) ≤ metric then
    if metric < s.best then
      if s.decreaseLr then (⟨lr1 * p.lr_shrink, true, s.best⟩, true)
      else (⟨lr1, true, s.best⟩, false)
    else (⟨lr1, s.decreaseLr, s.best⟩, false)
  else (⟨lr1, s.decreaseLr, s.best⟩, false)

/-- trainer.save_best: record the metric as the new best when it
strictly improves (the mapping checkpoints written alongside are
external I/O and not modelled). -/
def save_best (s : TrainerState) (metric : ℚ) : TrainerState :=
  if metric > s.best then ⟨s.lr, s.decreaseLr, metric⟩ else s

/-- Modelled from the spec: one validation-and-scheduling epoch of the
training loop orchestrator (the main loop script is not part of the
source tree); per section 4.6 it evaluates the metric, applies
update_lr, then checkpoints via save_best. -/
def epochStep (p : LrParams) (s : TrainerState) (metric : ℚ) :
    TrainerState × Bool :=
  let u := update_lr p s metric
  (save_best u.1 metric, u.2)

/-- Run the per-epoch scheduling over a list of validation metrics,
returning the final state and the per-epoch shrink flags. -/
def runEpochs (p : LrParams) (s : TrainerState) :
    List ℚ → TrainerState × List Bool
  | [] => (s, [])
  | m :: ms =>
    let u := epochStep p s m
    let r := runEpochs p u.1 ms
    (r.1, u.2 :: r.2)

/-- The trainer states entering each epoch of a run. -/
def statesList (p : LrParams) (s : TrainerState) : List ℚ → List TrainerState
  | [] => []
  | m :: ms => s :: statesList p (epochStep p s m).1 ms

/-- A non-improving evaluated epoch, as update_lr sees it: the SGD
scheduler is active, the shrink gate lr_shrink < 1 holds, the metric is
valid (at least -1e7) and it is strictly below the best validation
metric so far (exactly the condition that sets the decrease_lr flag). -/
def nonImprovingEpoch (p : LrParams) (s : TrainerState) (metric : ℚ) : Prop :=
  strContains p.map_optimizer "sgd" = true ∧ p.lr_shrink < 1 ∧
    -(10 ^ 7 : ℚ) ≤ metric ∧ metric < s.best

/-! ## Discriminator / mapping adversarial steps (trainer.dis_step,
lines 84-105, and trainer.mapping_step, lines 107-133)

The tensor computations are external; what the error-handling claim is
about is the control flow around the NaN check, so each method is
embedded as the ordered trace of its effects.  The Python NaN test
(loss != loss).data.any() holds exactly when the loss is NaN, which is
the Boolean parameter. -/

/-- The observable effects of a discriminator or mapping step, in
program order. -/
inductive TraceAction where
  | discTrain
  | discEval
  | computeLoss
  | appendStat
  | zeroGrad
  | backward
  | optimStep
  | clipParams
  | orthogonalizeMap
  | exitProcess
deriving DecidableEq, Repr

/-- trainer.dis_step as its effect trace: train mode, loss computation,
stats append, then either the NaN exit or the optimizer sequence
zero_grad / backward / step / clip_parameters. -/
def dis_step (lossIsNaN : Bool) : List TraceAction :=
  [.discTrain, .computeLoss, .appendStat] ++
    (if lossIsNaN then [.exitProcess]
     else [.zeroGrad, .backward, .optimStep, .clipParams])

/-- trainer.mapping_step as its effect trace: immediate return when
dis_lambda = 0, otherwise eval mode, loss computation, then either the
NaN exit or the optimizer sequence zero_grad / backward / step /
orthogonalize. -/
def mapping_step (dis_lambda : ℚ) (lossIsNaN : Bool) : List TraceAction :=
  if dis_lambda = 0 then []
  else
    [.discEval, .computeLoss] ++
      (if lossIsNaN then [.exitProcess]
       else [.zeroGrad, .backward, .optimStep, .orthogonalizeMap])

/-! ## Alignment Solver: two-space Procrustes (trainer.simple_procrustes,
lines 178-188)

The matched source and target points are the embedding rows selected by
the dictionary columns; the cross-covariance is the target block
transposed times the source block, and the mapping is overwritten with
U * Vt from the full-matrix SVD.  The scipy SVD is an external routine:
it is modelled by quantifying over any triple satisfying the SVD
contract.  Real entries are used here because the correctness argument
is spectral. -/

/-- Row selection emb[idx] of an embedding matrix by an index list. -/
def selectRows {v m d : ℕ} (emb : Matrix (Fin v) (Fin d) ℝ)
    (idx : Fin m → Fin v) : Matrix (Fin m) (Fin d) ℝ :=
  Matrix.of fun r c => emb (idx r) c

/-- The cross-covariance M = B.transpose(0, 1).mm(A) of
trainer.simple_procrustes, where A are the source-embedding rows at the
first dictionary column and B the target-embedding rows at the second. -/
def procrustes_M {vs vt m d : ℕ} (srcEmb : Matrix (Fin vs) (Fin d) ℝ)
    (tgtEmb : Matrix (Fin vt) (Fin d) ℝ) (dico : Fin m → Fin vs × Fin vt) :
    Matrix (Fin d) (Fin d) ℝ :=
  (selectRows tgtEmb (fun r => (dico r).2))ᵀ * selectRows srcEmb (fun r => (dico r).1)

/-- The value written into the source mapping matrix:
W.copy_(U.dot(V_t)). -/
def procrustes_W {d : ℕ} (U Vt : Matrix (Fin d) (Fin d) ℝ) :
    Matrix (Fin d) (Fin d) ℝ := U * Vt

/-- The contract of scipy.linalg.svd(M, full_matrices=True) for a square
real input: M = U * diag(S) * Vt with U and Vt orthogonal and the
singular values nonnegative. -/
structure IsSVD {d : ℕ} (M U : Matrix (Fin d) (Fin d) ℝ) (S : Fin d → ℝ)
    (Vt : Matrix (Fin d) (Fin d) ℝ) : Prop where
  hUl : Uᵀ * U = 1
  hUr : U * Uᵀ = 1
  hVl : Vtᵀ * Vt = 1
  hVr : Vt * Vtᵀ = 1
  hS : ∀ i, 0 ≤ S i
  hM : M = U * Matrix.diagonal S * Vt

/-- The identity dictionary i to i over a common vocabulary. -/
def idDico (n : ℕ) : Fin n → Fin n × Fin n := fun i => (i, i)

/-! ## Alignment Solver: generalized Procrustes
(trainer.generalized_procrustes, lines 197-216, and
trainer.get_group_average, lines 190-195)

Languages are coded by naturals; the dictionaries X and T of the Python
code are association structures given by an explicit key list plus a
value function, so that the dict lookup X[tgt_lang[0]] can fail exactly
as in Python (modelled by Option).  The scipy SVD appears as an
abstract parameter returning (U, S, V_t); only U * V_t is used.
Rational entries keep every operation executable. -/

/-- The shape of the abstract SVD routine for d x d rational matrices. -/
def SvdFn (d : ℕ) : Type :=
  Matrix (Fin d) (Fin d) ℚ →
    Matrix (Fin d) (Fin d) ℚ × (Fin d → ℚ) × Matrix (Fin d) (Fin d) ℚ

/-- The orthogonal factor product U.dot(V_t) of the abstract SVD. -/
def svdUV {d : ℕ} (svd : SvdFn d) (M : Matrix (Fin d) (Fin d) ℚ) :
    Matrix (Fin d) (Fin d) ℚ :=
  (svd M).1 * (svd M).2.2

/-- lang_list: all target languages when support is enabled, else only
the last one. -/
def lang_list (support : Bool) (tgtLangs : List ℕ) : List ℕ :=
  if support then tgtLangs else [tgtLangs.getLastD 0]

/-- The key set of the dictionary X: the participating target languages
followed by the source language (Python dict insertion order). -/
def gpKeys (support : Bool) (srcLang : ℕ) (tgtLangs : List ℕ) : List ℕ :=
  lang_list support tgtLangs ++ [srcLang]

/-- The value of X at a language key: the embedding rows selected by
that language column of the dictionary (column 0 for the source
language, column i for the i-th participating target language, counted
from 1). -/
def gpXval {k d : ℕ} (support : Bool) (srcLang : ℕ) (tgtLangs : List ℕ)
    (embSrc : ℕ → Fin d → ℚ) (embTgt : ℕ → ℕ → Fin d → ℚ)
    (dico : Fin k → ℕ → ℕ) (l : ℕ) : Matrix (Fin k) (Fin d) ℚ :=
  if l = srcLang then Matrix.of fun r c => embSrc (dico r 0) c
  else
    match (lang_list support tgtLangs).indexOf? l with
    | some i => Matrix.of fun r c => embTgt l (dico r (i + 1)) c
    | none => 0

/-- trainer.get_group_average: the elementwise mean over the keys of X
of each participating space mapped by its current matrix
(torch.mean(torch.stack([X[lang].mm(T[lang]) for lang in X.keys()]), 0)). -/
def get_group_average {k d : ℕ} (keys : List ℕ)
    (valX : ℕ → Matrix (Fin k) (Fin d) ℚ)
    (T : ℕ → Matrix (Fin d) (Fin d) ℚ) : Matrix (Fin k) (Fin d) ℚ :=
  ((keys.length : ℚ))⁻¹ • (keys.map fun l => valX l * T l).sum

/-- One iteration of the generalized Procrustes loop: pick the reference
shape (the first configured target language on the first iteration of an
initial run, which fails when that key is absent from X; the group
average otherwise), then update every mapping in X by the two-space
solve against the reference. -/
def gp_iter {k d : ℕ} (svd : SvdFn d) (keys : List ℕ)
    (valX : ℕ → Matrix (Fin k) (Fin d) ℚ) (firstTgt : ℕ) (init : Bool)
    (T : ℕ → Matrix (Fin d) (Fin d) ℚ) :
    Option (ℕ → Matrix (Fin d) (Fin d) ℚ) :=
  let G? :=
    if init then
      (if firstTgt ∈ keys then some (valX firstTgt) else none)
    else some (get_group_average keys valX T)
  G?.map fun G => fun l =>
    if l ∈ keys then svdUV svd (Gᵀ * valX l) else T l

/-- The counted iteration of the generalized Procrustes loop; the
initial-run flag is cleared after the first iteration
(initial_run = False at the end of the loop body). -/
def gp_loop {k d : ℕ} (svd : SvdFn d) (keys : List ℕ)
    (valX : ℕ → Matrix (Fin k) (Fin d) ℚ) (firstTgt : ℕ) :
    ℕ → Bool → (ℕ → Matrix (Fin d) (Fin d) ℚ) →
    Option (ℕ → Matrix (Fin d) (Fin d) ℚ)
  | 0, _, T => some T
  | Nat.succ n, init, T =>
    (gp_iter svd keys valX firstTgt init T).bind
      (gp_loop svd keys valX firstTgt n false)

/-- trainer.generalized_procrustes: assemble X over the participating
languages plus the source language and run exactly 100 iterations
(for _ in range(100), no convergence check). -/
def generalized_procrustes {k d : ℕ} (svd : SvdFn d)
    (support initial_run : Bool) (srcLang : ℕ) (tgtLangs : List ℕ)
    (embSrc : ℕ → Fin d → ℚ) (embTgt : ℕ → ℕ → Fin d → ℚ)
    (dico : Fin k → ℕ → ℕ) (T0 : ℕ → Matrix (Fin d) (Fin d) ℚ) :
    Option (ℕ → Matrix (Fin d) (Fin d) ℚ) :=
  gp_loop svd (gpKeys support srcLang tgtLangs)
    (gpXval support srcLang tgtLangs embSrc embTgt dico)
    (tgtLangs.headD 0) 100 initial_run T0

/-- Spec-shaped first iteration of an initial run: every mapping is
updated by the two-space solve against the matched points of the chosen
first target language. -/
def gpInitStep {k d : ℕ} (svd : SvdFn d) (keys : List ℕ)
    (valX : ℕ → Matrix (Fin k) (Fin d) ℚ) (firstTgt : ℕ)
    (T : ℕ → Matrix (Fin d) (Fin d) ℚ) : ℕ → Matrix (Fin d) (Fin d) ℚ :=
  fun l => if l ∈ keys then svdUV svd ((valX firstTgt)ᵀ * valX l) else T l

/-- Spec-shaped non-initial iteration: every mapping is updated by the
two-space solve against the recomputed mean reference. -/
def gpMeanStep {k d : ℕ} (svd : SvdFn d) (keys : List ℕ)
    (valX : ℕ → Matrix (Fin k) (Fin d) ℚ)
    (T : ℕ → Matrix (Fin d) (Fin d) ℚ) : ℕ → Matrix (Fin d) (Fin d) ℚ :=
  fun l => if l ∈ keys then
    svdUV svd ((get_group_average keys valX T)ᵀ * valX l) else T l

/-- Decidability of the non-improving-epoch condition. -/
instance nonImprovingEpochDecidable (p : LrParams) (s : TrainerState)
    (m : ℚ) : Decidable (nonImprovingEpoch p s m) := by
  unfold nonImprovingEpoch; infer_instance

/-- A concrete 10-word, 2-dimensional real embedding whose Gram matrix
is diagonal with positive distinct entries; used to instantiate the
identity-dictionary Procrustes scenario. -/
def demoEmb : Matrix (Fin 10) (Fin 2) ℝ :=
  Matrix.of fun i j =>
    if i.val = 0 ∧ j.val = 0 then 1
    else if i.val = 1 ∧ j.val = 1 then 2 else 0

/-- A concrete SVD oracle for dimension-1 witnesses. -/
def wSvd : SvdFn 1 := fun M => (M, fun _ => 0, 1)

/-- A concrete source embedding for dimension-1 witnesses. -/
def wEmbS : ℕ → Fin 1 → ℚ := fun _ _ => 0

/-- A concrete target embedding family for dimension-1 witnesses. -/
def wEmbT : ℕ → ℕ → Fin 1 → ℚ := fun _ _ _ => 0

/-- A concrete dictionary for dimension-1 witnesses. -/
def wDico : Fin 1 → ℕ → ℕ := fun _ _ => 0

/-- A concrete initial mapping family for dimension-1 witnesses. -/
def wT0 : ℕ → Matrix (Fin 1) (Fin 1) ℚ := fun _ => 1

/-! ## Theorems -/

/-- C6: if the loss computed in a discriminator step or in a mapping
(fooling) step is NaN, the process terminates immediately, before any
optimizer action (zero_grad / backward / step) of that iteration, with
no recovery: the trace ends in the exit and contains no optimizer
action. -/
theorem nan_loss_exits_before_optimizer (nan : Bool) (h : nan = true) :
    (dis_step nan =
        [.discTrain, .computeLoss, .appendStat, .exitProcess] ∧
      TraceAction.zeroGrad ∉ dis_step nan ∧
      TraceAction.backward ∉ dis_step nan ∧
      TraceAction.optimStep ∉ dis_step nan) ∧
    (∀ lam : ℚ, lam ≠ 0 →
      mapping_step lam nan = [.discEval, .computeLoss, .exitProcess] ∧
        TraceAction.zeroGrad ∉ mapping_step lam nan ∧
        TraceAction.backward ∉ mapping_step lam nan ∧
        TraceAction.optimStep ∉ mapping_step lam nan) := by
  subst h
  refine ⟨⟨rfl, by decide, by decide, by decide⟩, ?_⟩
  intro lam hlam
  have hms : mapping_step lam true = [.discEval, .computeLoss, .exitProcess] := by
    unfold mapping_step
    rw [if_neg hlam]
    decide
  refine ⟨hms, ?_, ?_, ?_⟩ <;> rw [hms] <;> decide

/-- C6 witness: concrete instantiation with a NaN loss and
dis_lambda = 1. -/
theorem nan_loss_exits_before_optimizer_witness :
    (true = true) ∧ ((1 : ℚ) ≠ 0) ∧
      (dis_step true =
          [.discTrain, .computeLoss, .appendStat, .exitProcess] ∧
        TraceAction.zeroGrad ∉ dis_step true ∧
        TraceAction.backward ∉ dis_step true ∧
        TraceAction.optimStep ∉ dis_step true) ∧
      (mapping_step 1 true = [.discEval, .computeLoss, .exitProcess] ∧
        TraceAction.zeroGrad ∉ mapping_step 1 true ∧
        TraceAction.backward ∉ mapping_step 1 true ∧
        TraceAction.optimStep ∉ mapping_step 1 true) :=
  ⟨rfl, one_ne_zero,
    (nan_loss_exits_before_optimizer true rfl).1,
    (nan_loss_exits_before_optimizer true rfl).2 1 one_ne_zero⟩

/-- C4: under the S2T&T2S policy, when the intersection of the
source-to-target candidates and the column-swapped target-to-source
candidates is empty, build_pairwise_dictionary returns the
absent-dictionary signal (Python None) after logging a warning, and
raises no exception. -/
theorem empty_intersection_returns_none (s2t t2s : List (ℕ × ℕ))
    (h : s2t.toFinset ∩ (t2s.map fun pr => (pr.2, pr.1)).toFinset = ∅) :
    build_pairwise_dictionary "S2T&T2S" s2t t2s = .ok none := by
  have h1 : (strContains "S2T&T2S" "S2T" = true ∨
      strContains "S2T&T2S" "T2S" = true) := by decide
  have h2 : ¬ ("S2T&T2S" = "S2T") := by decide
  have h3 : ¬ ("S2T&T2S" = "T2S") := by decide
  have h4 : ¬ ("S2T&T2S" = "S2T|T2S") := by decide
  simp only [build_pairwise_dictionary, if_neg (not_not_intro h1), if_neg h2,
    if_neg h3, if_neg h4, if_pos h]
  rfl

/-- C4 witness: disjoint concrete candidate sets. -/
theorem empty_intersection_returns_none_witness :
    ([((0 : ℕ), (0 : ℕ))].toFinset ∩
        ([((5 : ℕ), (5 : ℕ))].map fun pr => (pr.2, pr.1)).toFinset = ∅) ∧
      build_pairwise_dictionary "S2T&T2S" [(0, 0)] [(5, 5)] = .ok none :=
  ⟨by decide, empty_intersection_returns_none [(0, 0)] [(5, 5)] (by decide)⟩

/-- C5: target-to-source candidates have their two columns swapped back
into (source, target) order before any policy is applied (shown for the
T2S policy, whose result is exactly the swapped list), and in the
S2T&T2S scenario with S2T candidates (0, 1) and raw T2S candidates
(1, 0) (which normalize to (0, 1) after the swap) the resulting
dictionary is non-empty and equals the pair set containing (0, 1). -/
theorem t2s_swap_and_intersection_scenario :
    (∀ s2t t2s : List (ℕ × ℕ),
      build_pairwise_dictionary "T2S" s2t t2s =
        .ok (some (.tensorList (t2s.map fun pr => (pr.2, pr.1))))) ∧
    build_pairwise_dictionary "S2T&T2S" [(0, 1)] [(1, 0)] =
      .ok (some (.pairSet {(0, 1)})) := by
  constructor
  · intro s2t t2s
    rfl
  · rfl

/-- Auxiliary: multiplying a value below a nonnegative bound by a factor
in [0, 1) keeps it below the bound. -/
theorem key_shrink (y x sh : ℚ) (hx : x ≤ y) (hy : 0 ≤ y) (hsh : 0 ≤ sh)
    (hsh1 : sh < 1) : x * sh ≤ y := by
  rcases le_or_lt 0 x with hx0 | hx0
  · nlinarith
  · nlinarith

/-- C10 counterexample: with pathological negative scheduling parameters
(min_lr = -100, lr_decay = -50, lr_shrink = -1, which pass every gate in
the code, in particular lr_shrink < 1), a single update_lr call raises
the learning rate from 1 to 50, so the rate is not non-increasing for
all parameter settings. -/
theorem update_lr_can_increase_counterexample :
    ¬ ((update_lr ⟨"sgd", -100, -50, -1⟩ ⟨1, true, 10⟩ 5).1.lr ≤
        (⟨1, true, 10⟩ : TrainerState).lr) := by
  have hsgd : strContains "sgd" "sgd" = true := by decide
  have hmax : max (-100 : ℚ) (1 * -50) = -50 := by norm_num
  norm_num [update_lr, hsgd, hmax]

/-- C10 (amended): every update_lr call leaves the mapping optimizer
learning rate no larger than before, provided the current rate and the
shrink factor are nonnegative (the lr_shrink < 1 gate alone does not
exclude negative shrink factors, which can increase the rate; the decay
path alone is non-increasing because it writes only a strictly smaller
value). -/
theorem update_lr_nonincreasing (p : LrParams) (s : TrainerState) (m : ℚ)
    (h1 : 0 ≤ s.lr) (h2 : 0 ≤ p.lr_shrink) :
    (update_lr p s m).1.lr ≤ s.lr := by
  unfold update_lr
  split_ifs
  all_goals try exact le_rfl
  all_goals try exact le_of_lt (by assumption)
  all_goals
    refine key_shrink s.lr _ _ ?_ h1 h2
      (show p.lr_shrink < 1 ∧ -(10 ^ 7 : ℚ) ≤ m by assumption).1
  all_goals first
    | exact le_of_lt (by assumption)
    | exact le_rfl

/-- C10 witness: a benign parameter setting for the amended statement. -/
theorem update_lr_nonincreasing_witness :
    (0 : ℚ) ≤ (⟨1, false, 0⟩ : TrainerState).lr ∧
      (0 : ℚ) ≤ (⟨"sgd", 0, 1, 1/2⟩ : LrParams).lr_shrink ∧
      (update_lr ⟨"sgd", 0, 1, 1/2⟩ ⟨1, false, 0⟩ 0).1.lr ≤
        (⟨1, false, 0⟩ : TrainerState).lr :=
  ⟨by norm_num, by norm_num,
    update_lr_nonincreasing ⟨"sgd", 0, 1, 1/2⟩ ⟨1, false, 0⟩ 0
      (by norm_num) (by norm_num)⟩

/-- Auxiliary: save_best never changes the decrease_lr flag. -/
theorem save_best_keeps_flag (s : TrainerState) (m : ℚ) :
    (save_best s m).decreaseLr = s.decreaseLr := by
  unfold save_best; split_ifs <;> rfl

/-- Auxiliary: an epoch changes the decrease_lr flag exactly as
update_lr does. -/
theorem epochStep_flag (p : LrParams) (s : TrainerState) (m : ℚ) :
    (epochStep p s m).1.decreaseLr = (update_lr p s m).1.decreaseLr := by
  unfold epochStep; exact save_best_keeps_flag _ _

/-- Auxiliary: if update_lr leaves the decrease_lr flag set, either it
was already set or this epoch satisfied the flag-setting
(non-improving) condition. -/
theorem update_lr_flag_source (p : LrParams) (s : TrainerState) (m : ℚ)
    (h : (update_lr p s m).1.decreaseLr = true) :
    s.decreaseLr = true ∨ nonImprovingEpoch p s m := by
  unfold update_lr at h
  unfold nonImprovingEpoch
  split_ifs at h <;> simp_all

/-- Auxiliary: the shrink multiplication fires only when the
decrease_lr flag was already set when the epoch began. -/
theorem update_lr_shrank (p : LrParams) (s : TrainerState) (m : ℚ)
    (h : (update_lr p s m).2 = true) : s.decreaseLr = true := by
  unfold update_lr at h
  split_ifs at h <;> simp_all

/-- C7 counterexample: with metrics 5, 3, 10, 7 from the initial state,
the shrink fires on the fourth epoch (metric 7) although the
immediately preceding evaluated epoch (metric 10, best 5 at that point)
was improving: the decrease_lr flag set by epoch two (metric 3) is
sticky and is never reset by the improvement, so the shrink does not
require two consecutive non-improving epochs. -/
theorem lr_shrink_nonconsecutive_counterexample :
    (runEpochs ⟨"sgd", 0, 1, 1/2⟩ (initState 1) [5, 3, 10, 7]).2 =
        [false, false, false, true] ∧
      ¬ nonImprovingEpoch ⟨"sgd", 0, 1, 1/2⟩
          ((statesList ⟨"sgd", 0, 1, 1/2⟩ (initState 1) [5, 3, 10, 7]).getD 2
            (initState 1)) 10 := by
  have hsgd : strContains "sgd" "sgd" = true := by decide
  have hmax : max (0 : ℚ) (1 * 1) = 1 := by norm_num
  have hmax2 : max (0 : ℚ) (1 / 2 * 1) = 1 / 2 := by norm_num
  constructor
  · norm_num [runEpochs, epochStep, update_lr, save_best, initState, hsgd,
      hmax, hmax2]
  · norm_num [statesList, epochStep, update_lr, save_best, initState, hsgd,
      hmax, hmax2, nonImprovingEpoch]

/-- C7 (amended): in a run started with the decrease_lr flag clear, a
shrink at some epoch requires that some strictly earlier evaluated
epoch was non-improving (the flag is sticky: it is set by any
non-improving valid epoch and never reset, so the earlier non-improving
epoch need not be the immediately preceding one). -/
theorem lr_shrink_requires_prior_nonimproving (p : LrParams) (ms : List ℚ)
    (s0 : TrainerState) (h0 : s0.decreaseLr = false) (i : ℕ)
    (hi : (runEpochs p s0 ms).2.getD i false = true) :
    ∃ j, j < i ∧ nonImprovingEpoch p
      ((statesList p s0 ms).getD j (initState 0)) (ms.getD j 0) := by
  induction ms generalizing s0 i with
  | nil => simp [runEpochs] at hi
  | cons m ms ih =>
    match i with
    | 0 =>
      exfalso
      have hh : (epochStep p s0 m).2 = true := by
        simpa [runEpochs] using hi
      have := update_lr_shrank p s0 m hh
      rw [h0] at this
      exact Bool.false_ne_true this
    | Nat.succ n =>
      have htail : (runEpochs p (epochStep p s0 m).1 ms).2.getD n false = true := by
        simpa [runEpochs] using hi
      by_cases hf : (epochStep p s0 m).1.decreaseLr = false
      · obtain ⟨j, hj, hni⟩ := ih (epochStep p s0 m).1 hf n htail
        refine ⟨j + 1, by omega, ?_⟩
        simpa [statesList] using hni
      · refine ⟨0, by omega, ?_⟩
        have hft : (update_lr p s0 m).1.decreaseLr = true := by
          rw [← epochStep_flag]
          cases hb : (epochStep p s0 m).1.decreaseLr
          · exact absurd hb hf
          · rfl
        rcases update_lr_flag_source p s0 m hft with hl | hr
        · rw [h0] at hl; exact absurd hl Bool.false_ne_true
        · simpa [statesList] using hr

/-- C7 witness: metrics 5, 3, 2 shrink on the third epoch, and the run
indeed contains an earlier non-improving epoch. -/
theorem lr_shrink_requires_prior_nonimproving_witness :
    (initState 1).decreaseLr = false ∧
      (runEpochs ⟨"sgd", 0, 1, 1/2⟩ (initState 1) [5, 3, 2]).2.getD 2 false = true ∧
      ∃ j, j < 2 ∧ nonImprovingEpoch ⟨"sgd", 0, 1, 1/2⟩
        ((statesList ⟨"sgd", 0, 1, 1/2⟩ (initState 1) [5, 3, 2]).getD j (initState 0))
        ([5, 3, 2].getD j 0) := by
  have hsgd : strContains "sgd" "sgd" = true := by decide
  have hmax : max (0 : ℚ) (1 * 1) = 1 := by norm_num
  have hshr : (runEpochs ⟨"sgd", 0, 1, 1/2⟩ (initState 1) [5, 3, 2]).2.getD 2 false = true := by
    norm_num [runEpochs, epochStep, update_lr, save_best, initState, hsgd, hmax]
  exact ⟨rfl, hshr,
    lr_shrink_requires_prior_nonimproving ⟨"sgd", 0, 1, 1/2⟩ [5, 3, 2]
      (initState 1) rfl 2 hshr⟩

/-- Auxiliary counting lemma: if a predicate holds on the first k
enumerated positions of a list, the filtered enumeration keeps at least
min k (length) elements. -/
theorem min_le_length_filter_enumFrom {α : Type} (q : ℕ × α → Bool) :
    ∀ (l : List α) (s k : ℕ),
      (∀ i a, (i, a) ∈ l.enumFrom s → i < s + k → q (i, a) = true) →
      min k l.length ≤ ((l.enumFrom s).filter q).length := by
  intro l
  induction l with
  | nil => intro s k h; simp
  | cons c t ih =>
    intro s k h
    match k with
    | 0 => simp
    | Nat.succ k =>
      have hq : q (s, c) = true := by
        refine h s c ?_ (by omega)
        rw [List.enumFrom_cons]
        exact List.mem_cons_self _ _
      have ht := ih (s + 1) k (fun i a hmem hlt => by
        refine h i a ?_ (by omega)
        rw [List.enumFrom_cons]
        exact List.mem_cons_of_mem _ hmem)
      rw [List.enumFrom_cons, List.filter_cons_of_pos hq]
      simp only [List.length_cons]
      omega

/-- C3 counterexample: with dico_min_size = 1, dico_max_size = 1 and
dico_threshold = 1e9, the single overridden margin (the sentinel 1e9)
is not strictly above the threshold, so the result is empty and has
fewer than min(min_size, max_size) = 1 pairs: the min-size guarantee
fails for threshold values at or above the sentinel. -/
theorem get_candidates_min_size_counterexample :
    ¬ (min (1 : ℕ) 1 ≤
        (get_candidates ⟨0, 1, 1, 10 ^ 9⟩ [⟨0, 0, 0, 0⟩]).length) := by
  have hsort : sortCands [(⟨0, 0, 0, 0⟩ : Cand)] = [⟨0, 0, 0, 0⟩] := by
    unfold sortCands
    exact List.mergeSort_singleton _
  have hcap : sizeCapped ⟨0, 1, 1, 10 ^ 9⟩ [⟨0, 0, 0, 0⟩] =
      [(⟨0, 0, 0, 0⟩ : Cand)] := by
    unfold sizeCapped rankFiltered
    norm_num [mkCands, hsort]
  have henum : ([(⟨0, 0, 0, 0⟩ : Cand)]).enum = [(0, ⟨0, 0, 0, 0⟩)] := rfl
  simp only [get_candidates, hcap, henum]
  norm_num [effMargin]

/-- C3 (amended): whenever dico_min_size > 0, dico_max_size > 0, the
confidence threshold is below the 1e9 sentinel, and at least
min(min_size, max_size) pairs survive the rank filter, the returned
pair list keeps at least min(dico_min_size, dico_max_size) pairs for
every threshold, because the size cap runs before the min-size sentinel
override, which runs before the threshold filter. -/
theorem get_candidates_min_size (p : DicoParams) (rows : List ScoredRow)
    (h1 : 0 < p.dico_min_size) (h2 : 0 < p.dico_max_size)
    (h3 : p.dico_threshold < 10 ^ 9)
    (h4 : min p.dico_min_size p.dico_max_size ≤ (rankFiltered p rows).length) :
    min p.dico_min_size p.dico_max_size ≤ (get_candidates p rows).length := by
  have hlen : (sizeCapped p rows).length =
      min p.dico_max_size (rankFiltered p rows).length := by
    unfold sizeCapped
    rw [if_pos h2]
    exact List.length_take _ _
  unfold get_candidates
  by_cases hthr : 0 < p.dico_threshold
  · rw [if_pos hthr, List.length_map]
    have hfil := min_le_length_filter_enumFrom
      (fun ic => decide (p.dico_threshold < effMargin p ic.1 ic.2))
      (sizeCapped p rows) 0 p.dico_min_size
      (fun i a _ hlt => by
        simp only [decide_eq_true_eq]
        unfold effMargin
        rw [if_pos ⟨h1, by omega⟩]
        exact h3)
    rw [List.enum_eq_enumFrom]
    omega
  · rw [if_neg hthr]
    omega

/-- C3 witness: a single high-margin pair with min_size = max_size = 1
and a moderate threshold. -/
theorem get_candidates_min_size_witness :
    (0 < (1 : ℕ) ∧ 0 < (1 : ℕ) ∧ ((1 : ℚ) / 2 < 10 ^ 9) ∧
      min 1 1 ≤ (rankFiltered ⟨0, 1, 1, 1/2⟩ [⟨2, 0, 0, 0⟩]).length) ∧
      min 1 1 ≤ (get_candidates ⟨0, 1, 1, 1/2⟩ [⟨2, 0, 0, 0⟩]).length := by
  have hsort : sortCands [(⟨0, 0, 2, 0⟩ : Cand)] = [⟨0, 0, 2, 0⟩] := by
    unfold sortCands
    exact List.mergeSort_singleton _
  have hrank : rankFiltered ⟨0, 1, 1, 1/2⟩ [⟨2, 0, 0, 0⟩] =
      [(⟨0, 0, 2, 0⟩ : Cand)] := by
    unfold rankFiltered
    norm_num [mkCands, hsort]
  have h4 : min 1 1 ≤ (rankFiltered ⟨0, 1, 1, 1/2⟩ [⟨2, 0, 0, 0⟩]).length := by
    rw [hrank]; norm_num
  exact ⟨⟨by norm_num, by norm_num, by norm_num, h4⟩,
    get_candidates_min_size ⟨0, 1, 1, 1/2⟩ [⟨2, 0, 0, 0⟩]
      (by norm_num) (by norm_num) (by norm_num) h4⟩

/-- Auxiliary: the descending-margin comparison is transitive. -/
theorem candLE_trans (a b c : Cand) (h1 : candLE a b) (h2 : candLE b c) :
    candLE a c := by
  simp only [candLE, decide_eq_true_eq] at h1 h2 ⊢
  exact le_trans h2 h1

/-- Auxiliary: the descending-margin comparison is total. -/
theorem candLE_total (a b : Cand) : candLE a b || candLE b a := by
  simp only [candLE, Bool.or_eq_true, decide_eq_true_eq]
  exact (le_total b.margin a.margin).imp id id

/-- C8: the sort of candidate pairs by descending confidence margin is
stable (for every margin value, the pairs carrying that margin appear
in the sorted list in their original relative order), and therefore
re-sorting an already margin-sorted candidate list yields the identical
order (the sort is idempotent). -/
theorem margin_sort_stable_and_idempotent :
    (∀ (l : List Cand) (q : ℚ),
      (sortCands l).filter (fun c => decide (c.margin = q)) =
        l.filter (fun c => decide (c.margin = q))) ∧
    (∀ l : List Cand, sortCands (sortCands l) = sortCands l) := by
  constructor
  · intro l q
    have hmem : ∀ a ∈ l.filter (fun c => decide (c.margin = q)),
        Cand.margin a = q := by
      intro a ha
      have := List.of_mem_filter ha
      simpa using this
    have hpw : (l.filter (fun c => decide (c.margin = q))).Pairwise
        (fun a b => candLE a b) := by
      refine List.pairwise_of_forall_mem_list ?_
      intro a ha b hb
      simp only [candLE, decide_eq_true_eq]
      rw [hmem a ha, hmem b hb]
    have hsubl : List.Sublist (l.filter (fun c => decide (c.margin = q)))
        (sortCands l) := by
      unfold sortCands
      exact List.sublist_mergeSort candLE_trans candLE_total hpw
        (List.filter_sublist l)
    have hsub2 : List.Sublist (l.filter (fun c => decide (c.margin = q)))
        ((sortCands l).filter (fun c => decide (c.margin = q))) := by
      have hff := hsubl.filter (fun c => decide (c.margin = q))
      rwa [List.filter_eq_self.mpr (fun a ha => by
        simpa using hmem a ha)] at hff
    have hperm : List.Perm
        ((sortCands l).filter (fun c => decide (c.margin = q)))
        (l.filter (fun c => decide (c.margin = q))) :=
      (List.mergeSort_perm l candLE).filter _
    exact (hsub2.eq_of_length hperm.length_eq.symm).symm
  · intro l
    unfold sortCands
    exact List.mergeSort_of_sorted
      (List.sorted_mergeSort candLE_trans candLE_total l)

/-- Auxiliary: once the initial-run flag is cleared, every remaining
iteration of the generalized Procrustes loop is the mean-reference
step, and no iteration can fail. -/
theorem gp_loop_no_init {k d : ℕ} (svd : SvdFn d) (keys : List ℕ)
    (valX : ℕ → Matrix (Fin k) (Fin d) ℚ) (f : ℕ) :
    ∀ (n : ℕ) (T : ℕ → Matrix (Fin d) (Fin d) ℚ),
      gp_loop svd keys valX f n false T =
        some ((gpMeanStep svd keys valX)^[n] T) := by
  intro n
  induction n with
  | zero => intro T; rfl
  | succ n ih =>
    intro T
    have hiter : gp_iter svd keys valX f false T =
        some (gpMeanStep svd keys valX T) := rfl
    simp only [gp_loop, hiter, Option.some_bind]
    rw [ih, Function.iterate_succ_apply]

/-- Auxiliary: an initial run whose chosen first target language is a
key of X performs the initial-reference step once and then the
mean-reference step on every later iteration. -/
theorem gp_loop_init {k d : ℕ} (svd : SvdFn d) (keys : List ℕ)
    (valX : ℕ → Matrix (Fin k) (Fin d) ℚ) (f : ℕ) (h : f ∈ keys)
    (n : ℕ) (T : ℕ → Matrix (Fin d) (Fin d) ℚ) :
    gp_loop svd keys valX f (n + 1) true T =
      some ((gpMeanStep svd keys valX)^[n] (gpInitStep svd keys valX f T)) := by
  have hiter : gp_iter svd keys valX f true T =
      some (gpInitStep svd keys valX f T) := by
    unfold gp_iter
    simp only [if_true, if_pos h]
    rfl
  simp only [gp_loop, hiter, Option.some_bind]
  exact gp_loop_no_init svd keys valX f n _

/-- C2: the generalized Procrustes solver runs exactly 100 iterations
with no early-stopping check; provided the first configured target
language is a key of X, an initial run takes the reference of its first
iteration from that target language and uses the recomputed mean
reference on each of the 99 remaining iterations, while a non-initial
run uses the mean reference on all 100 iterations; every iteration
updates every participating mapping by the two-space Procrustes solve
(SVD of reference-transposed times matched points) against the current
reference. -/
theorem generalized_procrustes_structure {k d : ℕ} (svd : SvdFn d)
    (support : Bool) (srcLang : ℕ) (tgtLangs : List ℕ)
    (embSrc : ℕ → Fin d → ℚ) (embTgt : ℕ → ℕ → Fin d → ℚ)
    (dico : Fin k → ℕ → ℕ) (T0 : ℕ → Matrix (Fin d) (Fin d) ℚ)
    (h : tgtLangs.headD 0 ∈ gpKeys support srcLang tgtLangs) :
    generalized_procrustes svd support true srcLang tgtLangs embSrc embTgt dico T0 =
      some ((gpMeanStep svd (gpKeys support srcLang tgtLangs)
          (gpXval support srcLang tgtLangs embSrc embTgt dico))^[99]
        (gpInitStep svd (gpKeys support srcLang tgtLangs)
          (gpXval support srcLang tgtLangs embSrc embTgt dico)
          (tgtLangs.headD 0) T0)) ∧
    generalized_procrustes svd support false srcLang tgtLangs embSrc embTgt dico T0 =
      some ((gpMeanStep svd (gpKeys support srcLang tgtLangs)
          (gpXval support srcLang tgtLangs embSrc embTgt dico))^[100] T0) := by
  constructor
  · unfold generalized_procrustes
    have h100 : (100 : ℕ) = 99 + 1 := rfl
    rw [h100]
    exact gp_loop_init svd _ _ _ h 99 T0
  · unfold generalized_procrustes
    exact gp_loop_no_init svd _ _ _ 100 T0

/-- C2 witness: one target language with support enabled, a dimension-1
instance and an arbitrary concrete SVD oracle. -/
theorem generalized_procrustes_structure_witness :
    ((1 : ℕ) ∈ gpKeys true 0 [1]) ∧
      (generalized_procrustes wSvd true true 0 [1] wEmbS wEmbT wDico wT0 =
        some ((gpMeanStep wSvd (gpKeys true 0 [1])
            (gpXval true 0 [1] wEmbS wEmbT wDico))^[99]
          (gpInitStep wSvd (gpKeys true 0 [1])
            (gpXval true 0 [1] wEmbS wEmbT wDico) (List.headD [1] 0) wT0))) ∧
      (generalized_procrustes wSvd true false 0 [1] wEmbS wEmbT wDico wT0 =
        some ((gpMeanStep wSvd (gpKeys true 0 [1])
            (gpXval true 0 [1] wEmbS wEmbT wDico))^[100] wT0)) := by
  have hm : (1 : ℕ) ∈ gpKeys true 0 [1] := by
    simp [gpKeys, lang_list]
  have hh := generalized_procrustes_structure wSvd true 0 [1] wEmbS wEmbT
    wDico wT0 hm
  exact ⟨hm, hh.1, hh.2⟩

/-- C9: on an initial run the generalized Procrustes solver takes its
starting reference from the first configured target language, but when
support is disabled only the last target language (plus the source) is
assembled into X; hence with support disabled and more than one
(distinct) configured target language the run fails with a missing-key
lookup (none) instead of producing mappings, while it succeeds whenever
support is enabled or exactly one target language is configured. -/
theorem generalized_procrustes_initial_support_requirement {k d : ℕ}
    (svd : SvdFn d) (srcLang : ℕ) (embSrc : ℕ → Fin d → ℚ)
    (embTgt : ℕ → ℕ → Fin d → ℚ) (dico : Fin k → ℕ → ℕ)
    (T0 : ℕ → Matrix (Fin d) (Fin d) ℚ) :
    (∀ (a b : ℕ) (t : List ℕ), (a :: b :: t).Nodup → a ≠ srcLang →
      generalized_procrustes svd false true srcLang (a :: b :: t)
        embSrc embTgt dico T0 = none) ∧
    (∀ tgtLangs : List ℕ, tgtLangs ≠ [] →
      (generalized_procrustes svd true true srcLang tgtLangs
        embSrc embTgt dico T0).isSome = true) ∧
    (∀ a : ℕ, (generalized_procrustes svd false true srcLang [a]
        embSrc embTgt dico T0).isSome = true) := by
  refine ⟨?_, ?_, ?_⟩
  · intro a b t hnd hne
    have hna : a ∉ b :: t := (List.nodup_cons.mp hnd).1
    have hmem : (a :: b :: t).headD 0 ∉ gpKeys false srcLang (a :: b :: t) := by
      intro hcontra
      simp only [List.headD_cons, gpKeys, lang_list, if_neg Bool.false_ne_true,
        List.mem_append, List.mem_singleton] at hcontra
      rcases hcontra with hl | hr
      · rw [List.getLastD_cons, List.getLastD_cons] at hl
        exact hna (hl ▸ List.getLastD_mem_cons t b)
      · exact hne hr
    unfold generalized_procrustes
    have hiter : gp_iter svd (gpKeys false srcLang (a :: b :: t))
        (gpXval false srcLang (a :: b :: t) embSrc embTgt dico)
        ((a :: b :: t).headD 0) true T0 = none := by
      unfold gp_iter
      simp only [if_true, if_neg hmem]
      rfl
    rw [show (100 : ℕ) = 99 + 1 from rfl]
    simp only [gp_loop, hiter, Option.none_bind]
  · intro tgtLangs hne
    match tgtLangs, hne with
    | c :: t, _ =>
      have hm : (c :: t).headD 0 ∈ gpKeys true srcLang (c :: t) := by
        simp [gpKeys, lang_list]
      unfold generalized_procrustes
      rw [show (100 : ℕ) = 99 + 1 from rfl, gp_loop_init svd _ _ _ hm]
      rfl
  · intro a
    have hm : ([a] : List ℕ).headD 0 ∈ gpKeys false srcLang [a] := by
      simp [gpKeys, lang_list]
    unfold generalized_procrustes
    rw [show (100 : ℕ) = 99 + 1 from rfl, gp_loop_init svd _ _ _ hm]
    rfl

/-- C9 witness: two distinct target languages without support fail;
one target language with or without support succeeds. -/
theorem generalized_procrustes_initial_support_requirement_witness :
    (List.Nodup [1, 2] ∧ (1 : ℕ) ≠ 0 ∧
      generalized_procrustes wSvd false true 0 [1, 2] wEmbS wEmbT wDico wT0 =
        none) ∧
    (([3] : List ℕ) ≠ [] ∧
      (generalized_procrustes wSvd true true 0 [3] wEmbS wEmbT wDico
        wT0).isSome = true) ∧
    (generalized_procrustes wSvd false true 0 [4] wEmbS wEmbT wDico
      wT0).isSome = true := by
  have hh := generalized_procrustes_initial_support_requirement wSvd 0
    wEmbS wEmbT wDico wT0
  exact ⟨⟨by decide, by decide, hh.1 1 2 [] (by decide) (by decide)⟩,
    ⟨by decide, hh.2.1 [3] (by decide)⟩, hh.2.2 4⟩

/-- C1: the two-space Procrustes solver forms the cross-covariance M as
the matched target points transposed times the matched source points
and overwrites the mapping with W = U * Vt from the full SVD of M; in
the scenario of a common vocabulary with the identity dictionary and
identical embeddings in both spaces (so that M is the Gram matrix of
the embedding, assumed positive definite, the numerically generic
case), any SVD satisfying the contract yields W = identity exactly. -/
theorem simple_procrustes_identity (n d : ℕ)
    (A : Matrix (Fin n) (Fin d) ℝ) (U : Matrix (Fin d) (Fin d) ℝ)
    (S : Fin d → ℝ) (Vt : Matrix (Fin d) (Fin d) ℝ)
    (hsvd : IsSVD (procrustes_M A A (idDico n)) U S Vt)
    (hpd : (procrustes_M A A (idDico n)).PosDef) :
    procrustes_W U Vt = 1 := by
  obtain ⟨hUl, hUr, hVl, hVr, hS, hM⟩ := hsvd
  have hdiagPSD : (Matrix.diagonal S).PosSemidef :=
    Matrix.PosSemidef.diagonal (by intro i; simpa using hS i)
  have hPsd : (Vtᵀ * Matrix.diagonal S * Vt).PosSemidef := by
    have := hdiagPSD.conjTranspose_mul_mul_same Vt
    rwa [Matrix.conjTranspose_eq_transpose_of_trivial] at this
  have hMQP : procrustes_M A A (idDico n) =
      (U * Vt) * (Vtᵀ * Matrix.diagonal S * Vt) := by
    rw [hM]
    simp only [Matrix.mul_assoc]
    rw [← Matrix.mul_assoc Vt Vtᵀ, hVr, Matrix.one_mul]
  have hQQ : (U * Vt)ᵀ * (U * Vt) = 1 := by
    rw [Matrix.transpose_mul]
    simp only [Matrix.mul_assoc]
    rw [← Matrix.mul_assoc Uᵀ U, hUl, Matrix.one_mul, hVl]
  have hPT : (Vtᵀ * Matrix.diagonal S * Vt)ᵀ = Vtᵀ * Matrix.diagonal S * Vt := by
    simp [Matrix.transpose_mul, Matrix.mul_assoc]
  have hMT : (procrustes_M A A (idDico n))ᵀ = procrustes_M A A (idDico n) := by
    have hh := hpd.isHermitian.eq
    rwa [Matrix.conjTranspose_eq_transpose_of_trivial] at hh
  have hsq : (Vtᵀ * Matrix.diagonal S * Vt) ^ 2 =
      (procrustes_M A A (idDico n)) ^ 2 := by
    have h1 : (procrustes_M A A (idDico n))ᵀ * procrustes_M A A (idDico n) =
        (Vtᵀ * Matrix.diagonal S * Vt) * (Vtᵀ * Matrix.diagonal S * Vt) := by
      rw [hMQP, Matrix.transpose_mul, hPT]
      rw [Matrix.mul_assoc (Vtᵀ * Matrix.diagonal S * Vt) ((U * Vt)ᵀ)
          (U * Vt * (Vtᵀ * Matrix.diagonal S * Vt)),
        ← Matrix.mul_assoc ((U * Vt)ᵀ) (U * Vt)
          (Vtᵀ * Matrix.diagonal S * Vt),
        hQQ, Matrix.one_mul]
    rw [pow_two, pow_two, ← h1, hMT]
  have hPM : Vtᵀ * Matrix.diagonal S * Vt = procrustes_M A A (idDico n) :=
    hPsd.eq_of_sq_eq_sq hpd.posSemidef hsq
  have h5 : (U * Vt) * procrustes_M A A (idDico n) =
      procrustes_M A A (idDico n) := by
    conv_lhs => rw [← hPM]
    exact hMQP.symm
  have h6 : (U * Vt) * procrustes_M A A (idDico n) =
      1 * procrustes_M A A (idDico n) := by
    rw [Matrix.one_mul]
    exact h5
  exact hpd.isUnit.mul_right_cancel h6

/-- C1 witness: a 10-word vocabulary with identical 2-dimensional
embeddings in both spaces, the identity dictionary, and the concrete
SVD triple (identity, diag(1,4), identity) of the Gram matrix. -/
theorem simple_procrustes_identity_witness :
    IsSVD (procrustes_M demoEmb demoEmb (idDico 10)) 1 ![1, 4] 1 ∧
      (procrustes_M demoEmb demoEmb (idDico 10)).PosDef ∧
      procrustes_W (1 : Matrix (Fin 2) (Fin 2) ℝ) 1 = 1 := by
  have hMdiag : procrustes_M demoEmb demoEmb (idDico 10) =
      Matrix.diagonal ![1, 4] := by
    ext j j2
    fin_cases j <;> fin_cases j2 <;>
      norm_num [procrustes_M, selectRows, idDico, demoEmb, Matrix.mul_apply,
        Fin.sum_univ_succ, Matrix.diagonal]
  have hsvdW : IsSVD (procrustes_M demoEmb demoEmb (idDico 10)) 1 ![1, 4] 1 := by
    refine ⟨?_, ?_, ?_, ?_, ?_, ?_⟩
    · simp
    · simp
    · simp
    · simp
    · intro i; fin_cases i <;> norm_num
    · rw [hMdiag, Matrix.one_mul, Matrix.mul_one]
  have hpdW : (procrustes_M demoEmb demoEmb (idDico 10)).PosDef := by
    rw [hMdiag]
    refine Matrix.PosDef.diagonal ?_
    intro i
    fin_cases i <;> norm_num
  exact ⟨hsvdW, hpdW,
    simple_procrustes_identity 10 2 demoEmb 1 ![1, 4] 1 hsvdW hpdW⟩
